import Mathlib

/-!
Verification of the company-record mutation pipeline of the xm-service
repository: the entity validator (internal/core/domain.go), the
partial-update merger and mutation orchestrator
(internal/service/company.go), the HTTP patch gate (the handler file) and
an in-memory model of the PostgreSQL repository
(internal/platform/postgres/repository.go) faithful to its schema
constraints (UNIQUE name, PRIMARY KEY id) and its error mapping
(unique violation to DuplicateName, no row to NotFound).
-/

/-- The company entity, from internal/core/domain.go. The 128-bit uuid.UUID
is modelled as a Nat; the Go field Type (a string-typed enum) is the field
named ctype here because Type is reserved in Lean. -/
structure Company where
  ID : Nat
  Name : String
  Description : Option String
  Employees : Int
  Registered : Bool
  ctype : String
deriving DecidableEq, Repr

/-- A dynamically typed value of the patch field map, as produced by Go
JSON decoding into map[string]interface\x7b\x7d: strings, float64 numbers
(here exact rationals), Go ints (the programmatic case of the employees
type switch), booleans, and nil. -/
inductive JValue where
  | str (s : String)
  | num (q : ℚ)
  | int (n : ℤ)
  | bool (b : Bool)
  | null
deriving DecidableEq, Repr

/-- The untyped field map handed to Patch (Go map[string]interface\x7b\x7d);
keys are unique in a Go map, lookups are by List.lookup. -/
abbrev Updates := List (String × JValue)

/-- Error taxonomy of the core: core.ErrNotFound, core.ErrDuplicateName,
validation or merge errors carrying their message (Go errors.New), and the
handler-level empty-patch rejection (HTTP 400 "no fields to update"). -/
inductive Err where
  | NotFound
  | DuplicateName
  | Validation (msg : String)
  | EmptyPatch
deriving DecidableEq, Repr

/-- One observable call the orchestrator makes on its ports, in order:
repository calls and event publishes (the Bool is the publish outcome). -/
inductive TraceEv where
  | getById (id : Nat)
  | getByName (name : String)
  | repoCreate (c : Company)
  | repoUpdate (c : Company)
  | repoDelete (id : Nat)
  | publish (eventType : String) (ok : Bool)
deriving DecidableEq, Repr

/-- Result of a service operation: the returned value or error, the store
after the call, and the trace of port calls made. -/
structure SvcResult (α : Type) where
  res : Except Err α
  store : List Company
  trace : List TraceEv

/-- Go len(s) on a string counts raw bytes of the UTF-8 encoding. -/
def goLen (s : String) : Nat := s.utf8ByteSize

/-- CompanyType.IsValid from internal/core/domain.go: the four-value enum. -/
def isValidType (ct : String) : Bool :=
  ct == "Corporations" || ct == "NonProfit" || ct == "Cooperative" ||
    ct == "Sole Proprietorship"

/-- The description length guard of Validate: c.Description != nil and
len(*c.Description) > 3000. -/
def descTooLong (c : Company) : Bool :=
  match c.Description with
  | some d => decide (3000 < goLen d)
  | none => false

/-- Company.Validate from internal/core/domain.go, checks in source order
and returns the first failing rule's message. -/
def Validate (c : Company) : Option String :=
  if c.Name = "" then some "name is required"
  else if 15 < goLen c.Name then some "name must be 15 characters or fewer"
  else if descTooLong c then some "description must be 3000 characters or fewer"
  else if c.Employees < 0 then some "employees cannot be negative"
  else if !(isValidType c.ctype) then some ("invalid company type: " ++ c.ctype)
  else none

/-- The persisted store: the companies table rows. -/
abbrev Store := List Company

/-- Repository.GetByID: first row with the id, sql.ErrNoRows mapped to
core.ErrNotFound. -/
def getById (st : Store) (id : Nat) : Except Err Company :=
  match st.find? (fun r => r.ID == id) with
  | some c => .ok c
  | none => .error .NotFound

/-- Repository.GetByName: first row with the name; absence is a valid
non-error outcome (nil, nil). -/
def getByName (st : Store) (name : String) : Option Company :=
  st.find? (fun r => r.Name == name)

/-- Repository.Create: INSERT under the schema's PRIMARY KEY id and UNIQUE
name constraints; a unique violation (pq code 23505) is mapped to
core.ErrDuplicateName. -/
def repoCreate (st : Store) (c : Company) : Except Err Store :=
  if st.any (fun r => r.ID == c.ID || r.Name == c.Name) then .error .DuplicateName
  else .ok (st ++ [c])

/-- Repository.Update: UPDATE by id; a name unique violation is mapped to
core.ErrDuplicateName, zero rows affected to core.ErrNotFound. When the
target id is absent the statement updates nothing, so no constraint can
fire and the outcome is NotFound. -/
def repoUpdate (st : Store) (c : Company) : Except Err Store :=
  if st.any (fun r => r.ID == c.ID) then
    if st.any (fun r => r.ID != c.ID && r.Name == c.Name) then .error .DuplicateName
    else .ok (st.map (fun r => if r.ID == c.ID then c else r))
  else .error .NotFound

/-- Repository.Delete: DELETE by id; zero rows affected is mapped to
core.ErrNotFound. -/
def repoDelete (st : Store) (id : Nat) : Except Err Store :=
  if st.any (fun r => r.ID == id) then .ok (st.filter (fun r => r.ID != id))
  else .error .NotFound

/-- Go int(f) conversion of a float64: truncation toward zero. -/
def float64ToInt (q : ℚ) : ℤ := Int.tdiv q.num q.den

/-- The name step of applyUpdates (internal/service/company.go). -/
def applyName (u : Updates) (c : Company) : Except String Company :=
  match List.lookup "name" u with
  | none => .ok c
  | some (.str s) => .ok { c with Name := s }
  | some _ => .error "name must be a string"

/-- The description step of applyUpdates: nil clears the field, a string
sets it, anything else is a type error. -/
def applyDescription (u : Updates) (c : Company) : Except String Company :=
  match List.lookup "description" u with
  | none => .ok c
  | some .null => .ok { c with Description := none }
  | some (.str s) => .ok { c with Description := some s }
  | some _ => .error "description must be a string or null"

/-- The employees step of applyUpdates: a float64 is truncated with int(),
a Go int is taken unchanged, anything else is a type error. -/
def applyEmployees (u : Updates) (c : Company) : Except String Company :=
  match List.lookup "employees" u with
  | none => .ok c
  | some (.num q) => .ok { c with Employees := float64ToInt q }
  | some (.int n) => .ok { c with Employees := n }
  | some _ => .error "employees must be a number"

/-- The registered step of applyUpdates. -/
def applyRegistered (u : Updates) (c : Company) : Except String Company :=
  match List.lookup "registered" u with
  | none => .ok c
  | some (.bool b) => .ok { c with Registered := b }
  | some _ => .error "registered must be a boolean"

/-- The type step of applyUpdates. -/
def applyType (u : Updates) (c : Company) : Except String Company :=
  match List.lookup "type" u with
  | none => .ok c
  | some (.str s) => .ok { c with ctype := s }
  | some _ => .error "type must be a string"

/-- applyUpdates from internal/service/company.go: the five field steps in
source order; the first failing step aborts the merge. -/
def applyUpdates (c : Company) (u : Updates) : Except String Company :=
  Except.bind (applyName u c) (fun c1 =>
  Except.bind (applyDescription u c1) (fun c2 =>
  Except.bind (applyEmployees u c2) (fun c3 =>
  Except.bind (applyRegistered u c3) (fun c4 =>
  applyType u c4))))

/-- The duplicate-name probe condition of CompanyService.Patch: the probe
runs when updates["name"] is a string differing from the (already merged,
hence mutated) current record's name. -/
def patchNameProbe (u : Updates) (current : Company) : Option String :=
  match List.lookup "name" u with
  | some (.str v) => if v = current.Name then none else some v
  | _ => none

/-- The tail of CompanyService.Patch after the duplicate probe: validate
the merged record, persist via Update, publish CompanyUpdated best-effort. -/
def patchFinish (pubOk : Bool) (st : Store) (current : Company)
    (tr : List TraceEv) : SvcResult Company :=
  match Validate current with
  | some msg => ⟨.error (.Validation msg), st, tr⟩
  | none =>
    match repoUpdate st current with
    | .error e => ⟨.error e, st, tr ++ [.repoUpdate current]⟩
    | .ok st' =>
      ⟨.ok current, st', tr ++ [.repoUpdate current, .publish "CompanyUpdated" pubOk]⟩

/-- CompanyService.Patch from internal/service/company.go: fetch, merge,
(dead-in-practice) duplicate probe, validate, update, publish. -/
def Patch (pubOk : Bool) (st : Store) (id : Nat) (u : Updates) : SvcResult Company :=
  match getById st id with
  | .error e => ⟨.error e, st, [.getById id]⟩
  | .ok current =>
    match applyUpdates current u with
    | .error msg => ⟨.error (.Validation msg), st, [.getById id]⟩
    | .ok current' =>
      match patchNameProbe u current' with
      | some v =>
        match getByName st v with
        | some existing =>
          if existing.ID ≠ id then ⟨.error .DuplicateName, st, [.getById id, .getByName v]⟩
          else patchFinish pubOk st current' [.getById id, .getByName v]
        | none => patchFinish pubOk st current' [.getById id, .getByName v]
      | none => patchFinish pubOk st current' [.getById id]

/-- CompanyService.Create from internal/service/company.go: validate, probe
the name, mint the id, insert, publish CompanyCreated best-effort. -/
def Create (pubOk : Bool) (newId : Nat) (st : Store) (c : Company) : SvcResult Company :=
  match Validate c with
  | some msg => ⟨.error (.Validation msg), st, []⟩
  | none =>
    match getByName st c.Name with
    | some _ => ⟨.error .DuplicateName, st, [.getByName c.Name]⟩
    | none =>
      match repoCreate st { c with ID := newId } with
      | .error e => ⟨.error e, st, [.getByName c.Name, .repoCreate { c with ID := newId }]⟩
      | .ok st' =>
        ⟨.ok { c with ID := newId }, st',
          [.getByName c.Name, .repoCreate { c with ID := newId },
            .publish "CompanyCreated" pubOk]⟩

/-- CompanyService.Delete from internal/service/company.go: fetch (clean
NotFound first), delete, publish CompanyDeleted best-effort. -/
def Delete (pubOk : Bool) (st : Store) (id : Nat) : SvcResult Unit :=
  match getById st id with
  | .error e => ⟨.error e, st, [.getById id]⟩
  | .ok _found =>
    match repoDelete st id with
    | .error e => ⟨.error e, st, [.getById id, .repoDelete id]⟩
    | .ok st' => ⟨.ok (), st', [.getById id, .repoDelete id, .publish "CompanyDeleted" pubOk]⟩

/-- Handler.Patch gate (handler http file): strip the id key, reject an
empty remaining map with HTTP 400 "no fields to update" before calling the
service, otherwise delegate to CompanyService.Patch. -/
def handlerPatch (pubOk : Bool) (st : Store) (id : Nat) (u : Updates) : SvcResult Company :=
  let u' := u.filter (fun kv => kv.1 != "id")
  if u'.isEmpty then ⟨.error .EmptyPatch, st, []⟩
  else Patch pubOk st id u'

/-- Discriminates repository calls from publishes in a trace. -/
def isRepoEv : TraceEv → Bool
  | .getById _ => true
  | .getByName _ => true
  | .repoCreate _ => true
  | .repoUpdate _ => true
  | .repoDelete _ => true
  | .publish _ _ => false

/-- Discriminates publish events in a trace. -/
def isPublishEv : TraceEv → Bool
  | .publish _ _ => true
  | _ => false

/-- No repository call occurs after any publish event of the trace. -/
def noPersistAfterPublish : List TraceEv → Bool
  | [] => true
  | e :: rest =>
    (if isPublishEv e then rest.all (fun x => !(isRepoEv x)) else true) &&
      noPersistAfterPublish rest

/-- The records handed to the persistence layer's create or update calls
in a trace. -/
def persistedArgs : List TraceEv → List Company
  | [] => []
  | .repoCreate c :: rest => c :: persistedArgs rest
  | .repoUpdate c :: rest => c :: persistedArgs rest
  | _ :: rest => persistedArgs rest

/-- The four field invariants of a company record, as the spec states them. -/
def SatisfiesInvariants (c : Company) : Prop :=
  c.Name ≠ "" ∧ goLen c.Name ≤ 15 ∧
    (∀ d, c.Description = some d → goLen d ≤ 3000) ∧
    0 ≤ c.Employees ∧ isValidType c.ctype = true

/-- A store is well formed when every row satisfies the validator and ids
and names are pairwise distinct (the schema's PRIMARY KEY and UNIQUE
constraints). -/
def WellFormed (st : Store) : Prop :=
  (∀ r ∈ st, Validate r = none) ∧
    st.Pairwise (fun a b => a.ID ≠ b.ID ∧ a.Name ≠ b.Name)

/-- The five validation rules in the spec's fixed order, each paired with
its message; written from the spec's wording of section 4.1. -/
def specRuleChecks (c : Company) : List (Bool × String) :=
  [ (decide (c.Name = ""), "name is required"),
    (decide (15 < goLen c.Name), "name must be 15 characters or fewer"),
    (descTooLong c, "description must be 3000 characters or fewer"),
    (decide (c.Employees < 0), "employees cannot be negative"),
    (!(isValidType c.ctype), "invalid company type: " ++ c.ctype) ]

/-- The first violated rule's message in the spec's fixed order, none when
every rule passes; written from the spec's wording of section 4.1. -/
def specFirstViolation (c : Company) : Option String :=
  (((specRuleChecks c).filter (fun p => p.1)).head?).map (fun p => p.2)

/-- Wrong-typed presence of a patch key, per the merge's type switches:
name and type demand a string, description a string or null, employees a
number, registered a boolean; unrecognized keys are never wrong-typed. -/
def wrongTyped (k : String) (v : JValue) : Bool :=
  if k == "name" || k == "type" then
    match v with | .str _ => false | _ => true
  else if k == "description" then
    match v with | .str _ => false | .null => false | _ => true
  else if k == "employees" then
    match v with | .num _ => false | .int _ => false | _ => true
  else if k == "registered" then
    match v with | .bool _ => false | _ => true
  else false

/-- The merge error message naming a given field. -/
def fieldErrMsg (k : String) : String :=
  if k == "name" then "name must be a string"
  else if k == "description" then "description must be a string or null"
  else if k == "employees" then "employees must be a number"
  else if k == "registered" then "registered must be a boolean"
  else if k == "type" then "type must be a string"
  else ""

/-! ### Helper lemmas -/

theorem exceptBind_ok {α β : Type} {x : Except String α} {f : α → Except String β} {b : β} :
    Except.bind x f = .ok b ↔ ∃ a, x = .ok a ∧ f a = .ok b := by
  cases x <;> simp [Except.bind]

theorem exceptBind_error {α β : Type} {x : Except String α} {f : α → Except String β}
    {msg : String} :
    Except.bind x f = .error msg ↔
      x = .error msg ∨ ∃ a, x = .ok a ∧ f a = .error msg := by
  cases x <;> simp [Except.bind]

theorem utf8Go_replicate (n : Nat) :
    String.utf8ByteSize.go (List.replicate n 'a') = n := by
  induction n with
  | zero => rfl
  | succ k ih =>
    show String.utf8ByteSize.go (List.replicate k 'a') + 'a'.utf8Size = k + 1
    have h1 : 'a'.utf8Size = 1 := rfl
    rw [ih, h1]

theorem goLen_replicate (n : Nat) : goLen (String.mk (List.replicate n 'a')) = n :=
  utf8Go_replicate n

theorem descOk_iff (c : Company) :
    descTooLong c = false ↔ ∀ d, c.Description = some d → goLen d ≤ 3000 := by
  unfold descTooLong
  cases hd : c.Description with
  | none => simp [hd]
  | some d => simp [hd]

theorem validate_none_iff (c : Company) : Validate c = none ↔ SatisfiesInvariants c := by
  unfold Validate SatisfiesInvariants
  by_cases h1 : c.Name = "" <;>
    by_cases h3 : descTooLong c = true <;>
      by_cases h2 : 15 < goLen c.Name <;>
        by_cases h4 : c.Employees < 0 <;>
          by_cases h5 : isValidType c.ctype = true <;>
            simp [h1, h2, h3, h4, h5, ← descOk_iff, Bool.not_eq_true] <;> omega

theorem goLen_empty : goLen "" = 0 := rfl

theorem goLen_desc3001 : goLen (String.mk ('b' :: List.replicate 3000 'a')) = 3001 := by
  show String.utf8ByteSize.go (List.replicate 3000 'a') + 'b'.utf8Size = 3001
  have h1 : 'b'.utf8Size = 1 := rfl
  rw [utf8Go_replicate 3000, h1]

/-! ### Claim theorems -/

/-- C6: the validator is a pure function checking the rules in the fixed
order name presence, name length, description length, employees sign, type
membership; on a company violating several rules it returns exactly the
first violated rule's message in that order, and on a company satisfying
all rules it returns no error. Stated as equality with specFirstViolation,
which is written from the spec's wording. -/
theorem validator_fixed_order_first_message (c : Company) :
    Validate c = specFirstViolation c := by
  unfold Validate specFirstViolation specRuleChecks
  by_cases h1 : c.Name = "" <;>
    by_cases h3 : descTooLong c = true <;>
      by_cases h2 : 15 < goLen c.Name <;>
        by_cases h4 : c.Employees < 0 <;>
          by_cases h5 : isValidType c.ctype = true <;>
            simp [h1, h2, h3, h4, h5, List.filter]

/-- C7: boundary acceptance of the validator: a name of exactly 15 bytes of
encoded form passes while one of 16 is rejected; a description of exactly
3000 passes while 3001 is rejected; employees 0 passes while employees -1
is rejected (each time with the other fields satisfying their rules). -/
theorem validator_boundaries :
    (∀ c : Company, goLen c.Name = 15 → (∀ d, c.Description = some d → goLen d ≤ 3000) →
      0 ≤ c.Employees → isValidType c.ctype = true → Validate c = none) ∧
    (∀ c : Company, goLen c.Name = 16 →
      Validate c = some "name must be 15 characters or fewer") ∧
    (∀ (c : Company) (d : String), c.Description = some d → goLen d = 3000 → c.Name ≠ "" →
      goLen c.Name ≤ 15 → 0 ≤ c.Employees → isValidType c.ctype = true →
      Validate c = none) ∧
    (∀ (c : Company) (d : String), c.Description = some d → goLen d = 3001 → c.Name ≠ "" →
      goLen c.Name ≤ 15 → Validate c = some "description must be 3000 characters or fewer") ∧
    (∀ c : Company, c.Employees = 0 → c.Name ≠ "" → goLen c.Name ≤ 15 →
      (∀ d, c.Description = some d → goLen d ≤ 3000) → isValidType c.ctype = true →
      Validate c = none) ∧
    (∀ c : Company, c.Employees = -1 → c.Name ≠ "" → goLen c.Name ≤ 15 →
      (∀ d, c.Description = some d → goLen d ≤ 3000) →
      Validate c = some "employees cannot be negative") := by
  refine ⟨?_, ?_, ?_, ?_, ?_, ?_⟩
  · intro c h15 hd he ht
    have hne : c.Name ≠ "" := by
      intro h0; rw [h0, goLen_empty] at h15; omega
    have h2 : ¬(15 < goLen c.Name) := by omega
    have h3 : descTooLong c = false := (descOk_iff c).mpr hd
    have h4 : ¬(c.Employees < 0) := by omega
    unfold Validate
    simp [hne, h2, h3, h4, ht]
  · intro c h16
    have hne : c.Name ≠ "" := by
      intro h0; rw [h0, goLen_empty] at h16; omega
    have h2 : 15 < goLen c.Name := by omega
    unfold Validate
    simp [hne, h2]
  · intro c d hdesc h3000 hne h15 he ht
    have h2 : ¬(15 < goLen c.Name) := by omega
    have h3 : descTooLong c = false := by
      apply (descOk_iff c).mpr
      intro d2 hd2
      rw [hdesc] at hd2
      cases hd2
      omega
    have h4 : ¬(c.Employees < 0) := by omega
    unfold Validate
    simp [hne, h2, h3, h4, ht]
  · intro c d hdesc h3001 hne h15
    have h2 : ¬(15 < goLen c.Name) := by omega
    have h3 : descTooLong c = true := by
      unfold descTooLong
      rw [hdesc]
      simp
      omega
    unfold Validate
    simp [hne, h2, h3]
  · intro c he hne h15 hd ht
    have h2 : ¬(15 < goLen c.Name) := by omega
    have h3 : descTooLong c = false := (descOk_iff c).mpr hd
    have h4 : ¬(c.Employees < 0) := by omega
    unfold Validate
    simp [hne, h2, h3, h4, ht]
  · intro c he hne h15 hd
    have h2 : ¬(15 < goLen c.Name) := by omega
    have h3 : descTooLong c = false := (descOk_iff c).mpr hd
    have h4 : c.Employees < 0 := by omega
    unfold Validate
    simp [hne, h2, h3, h4]

/-- Witness for C7: the boundary theorem applied at concrete companies with
an exactly-15-byte and a 16-byte name, an exactly-3000-byte and a 3001-byte
description, and employee counts 0 and -1. -/
theorem validator_boundaries_witness :
    Validate ⟨0, "ABCDEFGHIJKLMNO", none, 0, true, "Corporations"⟩ = none ∧
    Validate ⟨0, "ABCDEFGHIJKLMNOP", none, 0, true, "Corporations"⟩ =
      some "name must be 15 characters or fewer" ∧
    Validate ⟨0, "A", some (String.mk (List.replicate 3000 'a')), 0, true,
      "Corporations"⟩ = none ∧
    Validate ⟨0, "A", some (String.mk ('b' :: List.replicate 3000 'a')), 0, true,
      "Corporations"⟩ = some "description must be 3000 characters or fewer" ∧
    Validate ⟨0, "A", none, 0, true, "Corporations"⟩ = none ∧
    Validate ⟨0, "A", none, -1, true, "Corporations"⟩ =
      some "employees cannot be negative" :=
  ⟨validator_boundaries.1 _ (by decide) (by simp) (by decide) (by decide),
   validator_boundaries.2.1 _ (by decide),
   validator_boundaries.2.2.1 _ _ rfl (goLen_replicate 3000) (by decide) (by decide)
     (by decide) (by decide),
   validator_boundaries.2.2.2.1 _ _ rfl goLen_desc3001 (by decide) (by decide),
   validator_boundaries.2.2.2.2.1 _ (by decide) (by decide) (by decide) (by simp)
     (by decide),
   validator_boundaries.2.2.2.2.2 _ (by decide) (by decide) (by decide) (by simp)⟩

theorem npap_no_publish (l : List TraceEv) (h : ∀ e ∈ l, isPublishEv e = false) :
    noPersistAfterPublish l = true := by
  induction l with
  | nil => rfl
  | cons e rest ih =>
    unfold noPersistAfterPublish
    rw [h e (by simp)]
    simp only [if_neg Bool.false_ne_true, Bool.true_and]
    exact ih (fun x hx => h x (by simp [hx]))

theorem npap_publish_last (l : List TraceEv) (h : ∀ e ∈ l, isPublishEv e = false)
    (ev : String) (b : Bool) :
    noPersistAfterPublish (l ++ [.publish ev b]) = true := by
  induction l with
  | nil => rfl
  | cons e rest ih =>
    rw [List.cons_append]
    simp only [noPersistAfterPublish]
    rw [h e (by simp)]
    simp only [if_neg Bool.false_ne_true, Bool.true_and]
    exact ih (fun x hx => h x (by simp [hx]))

theorem create_pub_invariant (pubOk : Bool) (newId : Nat) (st : Store) (c : Company) :
    (Create pubOk newId st c).res = (Create true newId st c).res ∧
      (Create pubOk newId st c).store = (Create true newId st c).store ∧
      noPersistAfterPublish (Create pubOk newId st c).trace = true := by
  unfold Create
  cases h1 : Validate c with
  | some msg => simp [noPersistAfterPublish]
  | none =>
    cases h2 : getByName st c.Name with
    | some r => simp [noPersistAfterPublish, isPublishEv]
    | none =>
      cases h3 : repoCreate st { c with ID := newId } with
      | error e => simp [noPersistAfterPublish, isPublishEv]
      | ok st2 =>
        refine ⟨rfl, rfl, ?_⟩
        exact npap_publish_last [.getByName c.Name, .repoCreate { c with ID := newId }]
          (by intro e he; simp at he; rcases he with h | h <;> simp [h, isPublishEv])
          "CompanyCreated" pubOk

theorem patchFinish_pub_invariant (pubOk : Bool) (st : Store) (current : Company)
    (tr : List TraceEv) (htr : ∀ e ∈ tr, isPublishEv e = false) :
    (patchFinish pubOk st current tr).res = (patchFinish true st current tr).res ∧
      (patchFinish pubOk st current tr).store = (patchFinish true st current tr).store ∧
      noPersistAfterPublish (patchFinish pubOk st current tr).trace = true := by
  unfold patchFinish
  cases h1 : Validate current with
  | some msg => exact ⟨rfl, rfl, npap_no_publish tr htr⟩
  | none =>
    cases h2 : repoUpdate st current with
    | error e =>
      refine ⟨rfl, rfl, ?_⟩
      apply npap_no_publish
      intro x hx
      rcases List.mem_append.mp hx with h | h
      · exact htr x h
      · simp at h; simp [h, isPublishEv]
    | ok st2 =>
      refine ⟨rfl, rfl, ?_⟩
      have hsplit : tr ++ [TraceEv.repoUpdate current, TraceEv.publish "CompanyUpdated" pubOk]
          = (tr ++ [TraceEv.repoUpdate current]) ++
            [TraceEv.publish "CompanyUpdated" pubOk] := by simp
      rw [hsplit]
      apply npap_publish_last
      intro x hx
      rcases List.mem_append.mp hx with h | h
      · exact htr x h
      · simp at h; simp [h, isPublishEv]

theorem patch_pub_invariant (pubOk : Bool) (st : Store) (id : Nat) (u : Updates) :
    (Patch pubOk st id u).res = (Patch true st id u).res ∧
      (Patch pubOk st id u).store = (Patch true st id u).store ∧
      noPersistAfterPublish (Patch pubOk st id u).trace = true := by
  unfold Patch
  split
  · simp [noPersistAfterPublish, isPublishEv]
  · split
    · simp [noPersistAfterPublish, isPublishEv]
    · split
      · split
        · split
          · simp [noPersistAfterPublish, isPublishEv]
          · apply patchFinish_pub_invariant
            intro e he
            simp at he
            rcases he with h | h <;> simp [h, isPublishEv]
        · apply patchFinish_pub_invariant
          intro e he
          simp at he
          rcases he with h | h <;> simp [h, isPublishEv]
      · apply patchFinish_pub_invariant
        intro e he
        simp at he
        simp [he, isPublishEv]

theorem delete_pub_invariant (pubOk : Bool) (st : Store) (id : Nat) :
    (Delete pubOk st id).res = (Delete true st id).res ∧
      (Delete pubOk st id).store = (Delete true st id).store ∧
      noPersistAfterPublish (Delete pubOk st id).trace = true := by
  unfold Delete
  split
  · simp [noPersistAfterPublish, isPublishEv]
  · split
    · simp [noPersistAfterPublish, isPublishEv]
    · refine ⟨rfl, rfl, ?_⟩
      exact npap_publish_last [.getById id, .repoDelete id]
        (by intro e he; simp at he; rcases he with h | h <;> simp [h, isPublishEv])
        "CompanyDeleted" pubOk

/-- C1: for every store, candidate and publish outcome, the result and the
resulting store of Create, Patch and Delete are identical to those of the
run whose publish succeeds — a publish error is never propagated to the
caller and never changes what is persisted — and no operation ever makes a
further persistence call after a publish event. -/
theorem publish_failure_isolated (pubOk : Bool) (newId : Nat) (st : Store) (c : Company)
    (id delId : Nat) (u : Updates) :
    ((Create pubOk newId st c).res = (Create true newId st c).res ∧
      (Create pubOk newId st c).store = (Create true newId st c).store ∧
      noPersistAfterPublish (Create pubOk newId st c).trace = true) ∧
    ((Patch pubOk st id u).res = (Patch true st id u).res ∧
      (Patch pubOk st id u).store = (Patch true st id u).store ∧
      noPersistAfterPublish (Patch pubOk st id u).trace = true) ∧
    ((Delete pubOk st delId).res = (Delete true st delId).res ∧
      (Delete pubOk st delId).store = (Delete true st delId).store ∧
      noPersistAfterPublish (Delete pubOk st delId).trace = true) :=
  ⟨create_pub_invariant pubOk newId st c, patch_pub_invariant pubOk st id u,
    delete_pub_invariant pubOk st delId⟩

theorem patchFinish_repoUpdate_mem (pubOk : Bool) (st : Store) (current : Company)
    (tr : List TraceEv) (c' : Company) (htr : TraceEv.repoUpdate c' ∉ tr)
    (h : TraceEv.repoUpdate c' ∈ (patchFinish pubOk st current tr).trace) :
    c' = current ∧ Validate current = none := by
  unfold patchFinish at h
  split at h
  · exact absurd h htr
  · split at h
    · rcases List.mem_append.mp h with hmem | hmem
      · exact absurd hmem htr
      · simp at hmem
        subst hmem
        constructor
        · rfl
        · assumption
    · rcases List.mem_append.mp h with hmem | hmem
      · exact absurd hmem htr
      · simp at hmem
        subst hmem
        constructor
        · rfl
        · assumption

/-- C2: every record the orchestrator hands to the persistence layer's
create or update call — for every input candidate of Create and every
(stored record, field map) pair of Patch — has a non-empty name of at most
15 bytes, a description of at most 3000 bytes when present, a non-negative
employee count, and a type in the fixed four-value set. -/
theorem persisted_records_validated (pubOk : Bool) (newId : Nat) (st : Store)
    (c : Company) (id : Nat) (u : Updates) (c' : Company)
    (h : TraceEv.repoCreate c' ∈ (Create pubOk newId st c).trace ∨
      TraceEv.repoUpdate c' ∈ (Patch pubOk st id u).trace) :
    c'.Name ≠ "" ∧ goLen c'.Name ≤ 15 ∧
      (∀ d, c'.Description = some d → goLen d ≤ 3000) ∧
      0 ≤ c'.Employees ∧ isValidType c'.ctype = true := by
  rcases h with h | h
  · unfold Create at h
    split at h
    · simp at h
    · split at h
      · simp at h
      · split at h <;>
        · simp at h
          subst h
          exact (validate_none_iff c).mp (by assumption)
  · unfold Patch at h
    split at h
    · simp at h
    · split at h
      · simp at h
      · split at h
        · split at h
          · split at h
            · simp at h
            · have hres := patchFinish_repoUpdate_mem _ _ _ _ _ (by simp) h
              rcases hres with ⟨he, hv⟩
              subst he
              exact (validate_none_iff c').mp hv
          · have hres := patchFinish_repoUpdate_mem _ _ _ _ _ (by simp) h
            rcases hres with ⟨he, hv⟩
            subst he
            exact (validate_none_iff c').mp hv
        · have hres := patchFinish_repoUpdate_mem _ _ _ _ _ (by simp) h
          rcases hres with ⟨he, hv⟩
          subst he
          exact (validate_none_iff c').mp hv

/-- Witness for C2: a concrete Create whose trace contains the repoCreate
call of the minted record, which therefore satisfies all four invariants. -/
theorem persisted_records_validated_witness :
    let minted : Company := ⟨7, "Acme", none, 10, true, "Corporations"⟩
    minted.Name ≠ "" ∧ goLen minted.Name ≤ 15 ∧
      (∀ d, minted.Description = some d → goLen d ≤ 3000) ∧
      0 ≤ minted.Employees ∧ isValidType minted.ctype = true :=
  persisted_records_validated true 7 [] ⟨0, "Acme", none, 10, true, "Corporations"⟩
    0 [] ⟨7, "Acme", none, 10, true, "Corporations"⟩ (Or.inl (by decide))

theorem getById_absent {st : Store} {id : Nat} (h : ∀ r ∈ st, r.ID ≠ id) :
    getById st id = .error .NotFound := by
  unfold getById
  rw [List.find?_eq_none.mpr (fun x hx => by simpa using h x hx)]

theorem getById_ok_of_mem {st : Store} {id : Nat} (h : ∃ r ∈ st, r.ID = id) :
    ∃ r, getById st id = .ok r ∧ r ∈ st ∧ r.ID = id := by
  rcases h with ⟨r, hr, hid⟩
  have hsome : (st.find? (fun x => x.ID == id)).isSome :=
    List.find?_isSome.mpr ⟨r, hr, by simp [hid]⟩
  cases hf : st.find? (fun x => x.ID == id) with
  | none => rw [hf] at hsome; simp at hsome
  | some r0 =>
    refine ⟨r0, ?_, List.mem_of_find?_eq_some hf, ?_⟩
    · unfold getById; rw [hf]
    · have := List.find?_some hf
      simpa using this

theorem any_id_false {st : Store} {id : Nat} (h : ∀ r ∈ st, r.ID ≠ id) :
    st.any (fun r => r.ID == id) = false := by
  cases hval : st.any (fun r => r.ID == id) with
  | false => rfl
  | true =>
    exfalso
    rcases List.any_eq_true.mp hval with ⟨x, hx, hbeq⟩
    exact h x hx (by simpa using hbeq)

theorem delete_absent_eq (pubOk : Bool) (st : Store) (id : Nat)
    (h : ∀ r ∈ st, r.ID ≠ id) :
    Delete pubOk st id = ⟨.error .NotFound, st, [.getById id]⟩ := by
  unfold Delete
  rw [getById_absent h]

theorem delete_present_eq (pubOk : Bool) (st : Store) (id : Nat)
    (hex : ∃ r ∈ st, r.ID = id) :
    (Delete pubOk st id).res = .ok () ∧
      (Delete pubOk st id).store = st.filter (fun r => r.ID != id) := by
  obtain ⟨r0, hok, hmem, hid⟩ := getById_ok_of_mem hex
  have hany : st.any (fun r => r.ID == id) = true :=
    List.any_eq_true.mpr ⟨r0, hmem, by simp [hid]⟩
  unfold Delete repoDelete
  simp [hok, hany]

/-- C8: Delete is not idempotent in its signaling but is in its storage
effect: deleting an absent (never present or already deleted) id yields
NotFound with the store unchanged; deleting a present id succeeds with no
content and removes the id, and repeating the Delete immediately yields
NotFound; and the persistence layer itself maps the zero-rows-affected
outcome to NotFound. -/
theorem delete_signaling :
    (∀ (pubOk : Bool) (st : Store) (id : Nat), (∀ r ∈ st, r.ID ≠ id) →
      (Delete pubOk st id).res = .error .NotFound ∧ (Delete pubOk st id).store = st) ∧
    (∀ (pubOk : Bool) (st : Store) (id : Nat), (∃ r ∈ st, r.ID = id) →
      (Delete pubOk st id).res = .ok () ∧
        (∀ r ∈ (Delete pubOk st id).store, r.ID ≠ id) ∧
        (Delete pubOk ((Delete pubOk st id).store) id).res = .error .NotFound) ∧
    (∀ (st : Store) (id : Nat), (∀ r ∈ st, r.ID ≠ id) →
      repoDelete st id = .error .NotFound) := by
  refine ⟨?_, ?_, ?_⟩
  · intro pubOk st id h
    rw [delete_absent_eq pubOk st id h]
    exact ⟨rfl, rfl⟩
  · intro pubOk st id hex
    obtain ⟨hres, hstore⟩ := delete_present_eq pubOk st id hex
    have habsent : ∀ r ∈ (Delete pubOk st id).store, r.ID ≠ id := by
      intro r hr
      rw [hstore] at hr
      have := List.mem_filter.mp hr
      simpa using this.2
    refine ⟨hres, habsent, ?_⟩
    rw [delete_absent_eq pubOk _ id habsent]
  · intro st id h
    unfold repoDelete
    rw [any_id_false h]
    simp

/-- Witness for C8: on a one-record store, Delete of a fresh id is
NotFound; Delete of the present id succeeds and deleting it again is
NotFound; repoDelete of the emptied store reports NotFound. -/
theorem delete_signaling_witness :
    ((Delete true [⟨1, "Acme", none, 1, true, "Corporations"⟩] 2).res =
        .error .NotFound ∧
      (Delete true [⟨1, "Acme", none, 1, true, "Corporations"⟩] 2).store =
        [⟨1, "Acme", none, 1, true, "Corporations"⟩]) ∧
    ((Delete true [⟨1, "Acme", none, 1, true, "Corporations"⟩] 1).res = .ok () ∧
      (∀ r ∈ (Delete true [⟨1, "Acme", none, 1, true, "Corporations"⟩] 1).store,
        r.ID ≠ 1) ∧
      (Delete true
          ((Delete true [⟨1, "Acme", none, 1, true, "Corporations"⟩] 1).store)
          1).res = .error .NotFound) ∧
    repoDelete ([] : Store) 1 = .error .NotFound :=
  ⟨delete_signaling.1 true [⟨1, "Acme", none, 1, true, "Corporations"⟩] 2
      (by decide),
    delete_signaling.2.1 true [⟨1, "Acme", none, 1, true, "Corporations"⟩] 1
      (by decide),
    delete_signaling.2.2 [] 1 (by decide)⟩

theorem applyName_ok {u : Updates} {c c1 : Company} (h : applyName u c = .ok c1) :
    (c1.ID = c.ID ∧ c1.Description = c.Description ∧ c1.Employees = c.Employees ∧
      c1.Registered = c.Registered ∧ c1.ctype = c.ctype) ∧
    ((List.lookup "name" u = none ∧ c1.Name = c.Name) ∨
      (∃ s, List.lookup "name" u = some (.str s) ∧ c1.Name = s)) := by
  unfold applyName at h
  split at h
  · rename_i heq
    injection h with h2
    subst h2
    exact ⟨⟨rfl, rfl, rfl, rfl, rfl⟩, Or.inl ⟨heq, rfl⟩⟩
  · rename_i s heq
    injection h with h2
    subst h2
    exact ⟨⟨rfl, rfl, rfl, rfl, rfl⟩, Or.inr ⟨s, heq, rfl⟩⟩
  · exact Except.noConfusion h
theorem applyName_error {u : Updates} {c : Company} {msg : String}
    (h : applyName u c = .error msg) :
    ∃ v, List.lookup "name" u = some v ∧ wrongTyped "name" v = true ∧
      msg = fieldErrMsg "name" := by
  unfold applyName at h
  split at h <;> simp_all [wrongTyped, fieldErrMsg]

theorem applyDescription_ok {u : Updates} {c c1 : Company}
    (h : applyDescription u c = .ok c1) :
    (c1.ID = c.ID ∧ c1.Name = c.Name ∧ c1.Employees = c.Employees ∧
      c1.Registered = c.Registered ∧ c1.ctype = c.ctype) ∧
    ((List.lookup "description" u = none ∧ c1.Description = c.Description) ∨
      (List.lookup "description" u = some .null ∧ c1.Description = none) ∨
      (∃ s, List.lookup "description" u = some (.str s) ∧ c1.Description = some s)) := by
  unfold applyDescription at h
  split at h
  · rename_i heq
    injection h with h2
    subst h2
    exact ⟨⟨rfl, rfl, rfl, rfl, rfl⟩, Or.inl ⟨heq, rfl⟩⟩
  · rename_i heq
    injection h with h2
    subst h2
    exact ⟨⟨rfl, rfl, rfl, rfl, rfl⟩, Or.inr (Or.inl ⟨heq, rfl⟩)⟩
  · rename_i s heq
    injection h with h2
    subst h2
    exact ⟨⟨rfl, rfl, rfl, rfl, rfl⟩, Or.inr (Or.inr ⟨s, heq, rfl⟩)⟩
  · exact Except.noConfusion h
theorem applyDescription_error {u : Updates} {c : Company} {msg : String}
    (h : applyDescription u c = .error msg) :
    ∃ v, List.lookup "description" u = some v ∧ wrongTyped "description" v = true ∧
      msg = fieldErrMsg "description" := by
  unfold applyDescription at h
  split at h <;> simp_all [wrongTyped, fieldErrMsg]

theorem applyEmployees_ok {u : Updates} {c c1 : Company}
    (h : applyEmployees u c = .ok c1) :
    (c1.ID = c.ID ∧ c1.Name = c.Name ∧ c1.Description = c.Description ∧
      c1.Registered = c.Registered ∧ c1.ctype = c.ctype) ∧
    ((List.lookup "employees" u = none ∧ c1.Employees = c.Employees) ∨
      (∃ q, List.lookup "employees" u = some (.num q) ∧
        c1.Employees = float64ToInt q) ∨
      (∃ n, List.lookup "employees" u = some (.int n) ∧ c1.Employees = n)) := by
  unfold applyEmployees at h
  split at h
  · rename_i heq
    injection h with h2
    subst h2
    exact ⟨⟨rfl, rfl, rfl, rfl, rfl⟩, Or.inl ⟨heq, rfl⟩⟩
  · rename_i q heq
    injection h with h2
    subst h2
    exact ⟨⟨rfl, rfl, rfl, rfl, rfl⟩, Or.inr (Or.inl ⟨q, heq, rfl⟩)⟩
  · rename_i n heq
    injection h with h2
    subst h2
    exact ⟨⟨rfl, rfl, rfl, rfl, rfl⟩, Or.inr (Or.inr ⟨n, heq, rfl⟩)⟩
  · exact Except.noConfusion h
theorem applyEmployees_error {u : Updates} {c : Company} {msg : String}
    (h : applyEmployees u c = .error msg) :
    ∃ v, List.lookup "employees" u = some v ∧ wrongTyped "employees" v = true ∧
      msg = fieldErrMsg "employees" := by
  unfold applyEmployees at h
  split at h <;> simp_all [wrongTyped, fieldErrMsg]

theorem applyRegistered_ok {u : Updates} {c c1 : Company}
    (h : applyRegistered u c = .ok c1) :
    (c1.ID = c.ID ∧ c1.Name = c.Name ∧ c1.Description = c.Description ∧
      c1.Employees = c.Employees ∧ c1.ctype = c.ctype) ∧
    ((List.lookup "registered" u = none ∧ c1.Registered = c.Registered) ∨
      (∃ b, List.lookup "registered" u = some (.bool b) ∧ c1.Registered = b)) := by
  unfold applyRegistered at h
  split at h
  · rename_i heq
    injection h with h2
    subst h2
    exact ⟨⟨rfl, rfl, rfl, rfl, rfl⟩, Or.inl ⟨heq, rfl⟩⟩
  · rename_i b heq
    injection h with h2
    subst h2
    exact ⟨⟨rfl, rfl, rfl, rfl, rfl⟩, Or.inr ⟨b, heq, rfl⟩⟩
  · exact Except.noConfusion h
theorem applyRegistered_error {u : Updates} {c : Company} {msg : String}
    (h : applyRegistered u c = .error msg) :
    ∃ v, List.lookup "registered" u = some v ∧ wrongTyped "registered" v = true ∧
      msg = fieldErrMsg "registered" := by
  unfold applyRegistered at h
  split at h <;> simp_all [wrongTyped, fieldErrMsg]

theorem applyType_ok {u : Updates} {c c1 : Company} (h : applyType u c = .ok c1) :
    (c1.ID = c.ID ∧ c1.Name = c.Name ∧ c1.Description = c.Description ∧
      c1.Employees = c.Employees ∧ c1.Registered = c.Registered) ∧
    ((List.lookup "type" u = none ∧ c1.ctype = c.ctype) ∨
      (∃ s, List.lookup "type" u = some (.str s) ∧ c1.ctype = s)) := by
  unfold applyType at h
  split at h
  · rename_i heq
    injection h with h2
    subst h2
    exact ⟨⟨rfl, rfl, rfl, rfl, rfl⟩, Or.inl ⟨heq, rfl⟩⟩
  · rename_i s heq
    injection h with h2
    subst h2
    exact ⟨⟨rfl, rfl, rfl, rfl, rfl⟩, Or.inr ⟨s, heq, rfl⟩⟩
  · exact Except.noConfusion h
theorem applyType_error {u : Updates} {c : Company} {msg : String}
    (h : applyType u c = .error msg) :
    ∃ v, List.lookup "type" u = some v ∧ wrongTyped "type" v = true ∧
      msg = fieldErrMsg "type" := by
  unfold applyType at h
  split at h <;> simp_all [wrongTyped, fieldErrMsg]

theorem applyUpdates_ok {c : Company} {u : Updates} {c' : Company}
    (h : applyUpdates c u = .ok c') :
    ∃ c1 c2 c3 c4, applyName u c = .ok c1 ∧ applyDescription u c1 = .ok c2 ∧
      applyEmployees u c2 = .ok c3 ∧ applyRegistered u c3 = .ok c4 ∧
      applyType u c4 = .ok c' := by
  unfold applyUpdates at h
  rcases exceptBind_ok.mp h with ⟨c1, h1, h⟩
  rcases exceptBind_ok.mp h with ⟨c2, h2, h⟩
  rcases exceptBind_ok.mp h with ⟨c3, h3, h⟩
  rcases exceptBind_ok.mp h with ⟨c4, h4, h5⟩
  exact ⟨c1, c2, c3, c4, h1, h2, h3, h4, h5⟩

theorem applyUpdates_error {c : Company} {u : Updates} {msg : String}
    (h : applyUpdates c u = .error msg) :
    ∃ k v, List.lookup k u = some v ∧ wrongTyped k v = true ∧
      msg = fieldErrMsg k := by
  unfold applyUpdates at h
  rcases exceptBind_error.mp h with h1 | ⟨c1, _, h⟩
  · obtain ⟨v, hv, hw, hm⟩ := applyName_error h1
    exact ⟨"name", v, hv, hw, hm⟩
  rcases exceptBind_error.mp h with h2 | ⟨c2, _, h⟩
  · obtain ⟨v, hv, hw, hm⟩ := applyDescription_error h2
    exact ⟨"description", v, hv, hw, hm⟩
  rcases exceptBind_error.mp h with h3 | ⟨c3, _, h⟩
  · obtain ⟨v, hv, hw, hm⟩ := applyEmployees_error h3
    exact ⟨"employees", v, hv, hw, hm⟩
  rcases exceptBind_error.mp h with h4 | ⟨c4, _, h5⟩
  · obtain ⟨v, hv, hw, hm⟩ := applyRegistered_error h4
    exact ⟨"registered", v, hv, hw, hm⟩
  · obtain ⟨v, hv, hw, hm⟩ := applyType_error h5
    exact ⟨"type", v, hv, hw, hm⟩

theorem wrongTyped_key {k : String} {v : JValue} (h : wrongTyped k v = true) :
    k = "name" ∨ k = "description" ∨ k = "employees" ∨ k = "registered" ∨
      k = "type" := by
  by_cases h1 : k = "name"
  · exact Or.inl h1
  by_cases h2 : k = "description"
  · exact Or.inr (Or.inl h2)
  by_cases h3 : k = "employees"
  · exact Or.inr (Or.inr (Or.inl h3))
  by_cases h4 : k = "registered"
  · exact Or.inr (Or.inr (Or.inr (Or.inl h4)))
  by_cases h5 : k = "type"
  · exact Or.inr (Or.inr (Or.inr (Or.inr h5)))
  exfalso
  unfold wrongTyped at h
  simp [beq_iff_eq, h1, h2, h3, h4, h5] at h

/-- C9: in the partial-update merge, a description key present with an
explicit null clears the description (sets it absent), while a mapping
without the description key leaves the current description untouched, and
the two inputs give different merge results whenever the current
description is present. -/
theorem description_null_clears :
    (∀ (c : Company) (u : Updates) (c' : Company),
      List.lookup "description" u = some JValue.null → applyUpdates c u = .ok c' →
      c'.Description = none) ∧
    (∀ (c : Company) (u : Updates) (c' : Company),
      List.lookup "description" u = none → applyUpdates c u = .ok c' →
      c'.Description = c.Description) ∧
    (∀ (c : Company) (d : String), c.Description = some d →
      applyUpdates c [("description", JValue.null)] ≠ applyUpdates c []) := by
  refine ⟨?_, ?_, ?_⟩
  · intro c u c' hlk h
    obtain ⟨c1, c2, c3, c4, h1, h2, h3, h4, h5⟩ := applyUpdates_ok h
    have hc2 : c2.Description = none := by
      rcases (applyDescription_ok h2).2 with ⟨hn, _⟩ | ⟨_, hd⟩ | ⟨s, hs, _⟩
      · rw [hlk] at hn; exact Option.noConfusion hn
      · exact hd
      · rw [hlk] at hs; injection hs with hv; exact JValue.noConfusion hv
    have e3 := (applyEmployees_ok h3).1.2.2.1
    have e4 := (applyRegistered_ok h4).1.2.2.1
    have e5 := (applyType_ok h5).1.2.2.1
    rw [e5, e4, e3, hc2]
  · intro c u c' hlk h
    obtain ⟨c1, c2, c3, c4, h1, h2, h3, h4, h5⟩ := applyUpdates_ok h
    have hc2 : c2.Description = c1.Description := by
      rcases (applyDescription_ok h2).2 with ⟨_, hd⟩ | ⟨hs, _⟩ | ⟨s, hs, _⟩
      · exact hd
      · rw [hlk] at hs; exact Option.noConfusion hs
      · rw [hlk] at hs; exact Option.noConfusion hs
    have e1 := (applyName_ok h1).1.2.1
    have e3 := (applyEmployees_ok h3).1.2.2.1
    have e4 := (applyRegistered_ok h4).1.2.2.1
    have e5 := (applyType_ok h5).1.2.2.1
    rw [e5, e4, e3, hc2, e1]
  · intro c d hd heq
    have h1 : applyUpdates c [("description", JValue.null)] =
        .ok { c with Description := none } := rfl
    have h2 : applyUpdates c [] = .ok c := rfl
    rw [h1, h2] at heq
    injection heq with heq2
    have hfield : (none : Option String) = c.Description :=
      congrArg Company.Description heq2
    rw [hd] at hfield
    exact Option.noConfusion hfield

/-- Witness for C9: merging an explicit-null description over a record with
a present description clears it, merging a description-free map preserves
it, and the two results differ. -/
theorem description_null_clears_witness :
    (⟨1, "Acme", none, 1, true, "Corporations"⟩ : Company).Description = none ∧
    (⟨1, "Beta", some "d", 1, true, "Corporations"⟩ : Company).Description =
      (⟨1, "Acme", some "d", 1, true, "Corporations"⟩ : Company).Description ∧
    applyUpdates ⟨1, "Acme", some "d", 1, true, "Corporations"⟩
        [("description", JValue.null)] ≠
      applyUpdates ⟨1, "Acme", some "d", 1, true, "Corporations"⟩ [] :=
  ⟨description_null_clears.1 ⟨1, "Acme", some "d", 1, true, "Corporations"⟩
      [("description", JValue.null)] ⟨1, "Acme", none, 1, true, "Corporations"⟩
      rfl rfl,
   description_null_clears.2.1 ⟨1, "Acme", some "d", 1, true, "Corporations"⟩
      [("name", JValue.str "Beta")] ⟨1, "Beta", some "d", 1, true, "Corporations"⟩
      rfl rfl,
   description_null_clears.2.2 ⟨1, "Acme", some "d", 1, true, "Corporations"⟩
      "d" rfl⟩

/-- C10: an employees value arriving in the patch map as a floating-point
number is accepted by the merge and truncated toward zero by the int()
conversion (20 stays 20, 10.9 becomes 10), so a patch whose only
float-shaped aspect is the employee count does not fail with a type error
when every other present mutable key is well typed; a Go-integer value is
accepted unchanged. -/
theorem employees_float_truncated :
    (∀ (c : Company) (u : Updates) (q : ℚ),
      List.lookup "employees" u = some (.num q) →
      (∀ v, List.lookup "name" u = some v → wrongTyped "name" v = false) →
      (∀ v, List.lookup "description" u = some v →
        wrongTyped "description" v = false) →
      (∀ v, List.lookup "registered" u = some v →
        wrongTyped "registered" v = false) →
      (∀ v, List.lookup "type" u = some v → wrongTyped "type" v = false) →
      ∃ c', applyUpdates c u = .ok c' ∧ c'.Employees = float64ToInt q) ∧
    (∀ (c : Company) (u : Updates) (n : ℤ),
      List.lookup "employees" u = some (.int n) →
      (∀ v, List.lookup "name" u = some v → wrongTyped "name" v = false) →
      (∀ v, List.lookup "description" u = some v →
        wrongTyped "description" v = false) →
      (∀ v, List.lookup "registered" u = some v →
        wrongTyped "registered" v = false) →
      (∀ v, List.lookup "type" u = some v → wrongTyped "type" v = false) →
      ∃ c', applyUpdates c u = .ok c' ∧ c'.Employees = n) ∧
    float64ToInt 20 = 20 ∧ float64ToInt (109/10 : ℚ) = 10 := by
  refine ⟨?_, ?_, ?_, ?_⟩
  · intro c u q hlk hnm hds hrg hty
    cases h1 : applyName u c with
    | error m =>
      exfalso
      obtain ⟨v, hv, hw, _⟩ := applyName_error h1
      rw [hnm v hv] at hw
      exact Bool.noConfusion hw
    | ok c1 =>
      cases h2 : applyDescription u c1 with
      | error m =>
        exfalso
        obtain ⟨v, hv, hw, _⟩ := applyDescription_error h2
        rw [hds v hv] at hw
        exact Bool.noConfusion hw
      | ok c2 =>
        have h3 : applyEmployees u c2 = .ok { c2 with Employees := float64ToInt q } := by
          unfold applyEmployees
          rw [hlk]
        cases h4 : applyRegistered u { c2 with Employees := float64ToInt q } with
        | error m =>
          exfalso
          obtain ⟨v, hv, hw, _⟩ := applyRegistered_error h4
          rw [hrg v hv] at hw
          exact Bool.noConfusion hw
        | ok c4 =>
          cases h5 : applyType u c4 with
          | error m =>
            exfalso
            obtain ⟨v, hv, hw, _⟩ := applyType_error h5
            rw [hty v hv] at hw
            exact Bool.noConfusion hw
          | ok c5 =>
            refine ⟨c5, ?_, ?_⟩
            · unfold applyUpdates
              simp only [h1, Except.bind, h2, h3, h4, h5]
            · have e5 := (applyType_ok h5).1.2.2.2.1
              have e4 := (applyRegistered_ok h4).1.2.2.2.1
              rw [e5, e4]
  · intro c u n hlk hnm hds hrg hty
    cases h1 : applyName u c with
    | error m =>
      exfalso
      obtain ⟨v, hv, hw, _⟩ := applyName_error h1
      rw [hnm v hv] at hw
      exact Bool.noConfusion hw
    | ok c1 =>
      cases h2 : applyDescription u c1 with
      | error m =>
        exfalso
        obtain ⟨v, hv, hw, _⟩ := applyDescription_error h2
        rw [hds v hv] at hw
        exact Bool.noConfusion hw
      | ok c2 =>
        have h3 : applyEmployees u c2 = .ok { c2 with Employees := n } := by
          unfold applyEmployees
          rw [hlk]
        cases h4 : applyRegistered u { c2 with Employees := n } with
        | error m =>
          exfalso
          obtain ⟨v, hv, hw, _⟩ := applyRegistered_error h4
          rw [hrg v hv] at hw
          exact Bool.noConfusion hw
        | ok c4 =>
          cases h5 : applyType u c4 with
          | error m =>
            exfalso
            obtain ⟨v, hv, hw, _⟩ := applyType_error h5
            rw [hty v hv] at hw
            exact Bool.noConfusion hw
          | ok c5 =>
            refine ⟨c5, ?_, ?_⟩
            · unfold applyUpdates
              simp only [h1, Except.bind, h2, h3, h4, h5]
            · have e5 := (applyType_ok h5).1.2.2.2.1
              have e4 := (applyRegistered_ok h4).1.2.2.2.1
              rw [e5, e4]
  · unfold float64ToInt
    norm_num
  · unfold float64ToInt
    norm_num
    decide

/-- Witness for C10: merging a float employee count of 109/10 over a
record succeeds (no type error) with the count truncated, and a Go-integer
count of 7 is accepted unchanged. -/
theorem employees_float_truncated_witness :
    (∃ c', applyUpdates ⟨1, "Acme", none, 1, true, "Corporations"⟩
        [("employees", JValue.num (109/10))] = .ok c' ∧
        c'.Employees = float64ToInt (109/10)) ∧
    (∃ c', applyUpdates ⟨1, "Acme", none, 1, true, "Corporations"⟩
        [("employees", JValue.int 7)] = .ok c' ∧ c'.Employees = 7) :=
  ⟨employees_float_truncated.1 _ _ _ rfl
      (fun v h => absurd h (by simp [List.lookup]))
      (fun v h => absurd h (by simp [List.lookup]))
      (fun v h => absurd h (by simp [List.lookup]))
      (fun v h => absurd h (by simp [List.lookup])),
   employees_float_truncated.2.1 _ _ _ rfl
      (fun v h => absurd h (by simp [List.lookup]))
      (fun v h => absurd h (by simp [List.lookup]))
      (fun v h => absurd h (by simp [List.lookup]))
      (fun v h => absurd h (by simp [List.lookup]))⟩

/-- C5: when any of the five mutable fields is present in the map with a
wrongly typed value, the merge fails with the type-mismatch message of a
wrongly typed present field and is all-or-nothing: Patch returns the merge
error, leaves the store untouched, and neither persists nor publishes (its
trace is the single fetch). -/
theorem patch_type_mismatch :
    (∀ (c : Company) (u : Updates) (k : String) (v : JValue),
      List.lookup k u = some v → wrongTyped k v = true →
      ∃ k2 v2, List.lookup k2 u = some v2 ∧ wrongTyped k2 v2 = true ∧
        applyUpdates c u = .error (fieldErrMsg k2)) ∧
    (∀ (pubOk : Bool) (st : Store) (id : Nat) (u : Updates) (current : Company)
      (msg : String), getById st id = .ok current →
      applyUpdates current u = .error msg →
      Patch pubOk st id u = ⟨.error (.Validation msg), st, [.getById id]⟩) := by
  constructor
  · intro c u k v hlk hw
    cases happ : applyUpdates c u with
    | error msg =>
      obtain ⟨k2, v2, h1, h2, h3⟩ := applyUpdates_error happ
      exact ⟨k2, v2, h1, h2, by rw [h3]⟩
    | ok c' =>
      exfalso
      obtain ⟨c1, c2, c3, c4, h1, h2, h3, h4, h5⟩ := applyUpdates_ok happ
      rcases wrongTyped_key hw with hk | hk | hk | hk | hk <;> subst hk
      · rcases (applyName_ok h1).2 with ⟨hn, _⟩ | ⟨s, hs, _⟩
        · rw [hlk] at hn; exact Option.noConfusion hn
        · rw [hlk] at hs
          injection hs with hv
          subst hv
          simp [wrongTyped] at hw
      · rcases (applyDescription_ok h2).2 with ⟨hn, _⟩ | ⟨hs, _⟩ | ⟨s, hs, _⟩
        · rw [hlk] at hn; exact Option.noConfusion hn
        · rw [hlk] at hs
          injection hs with hv
          subst hv
          simp [wrongTyped] at hw
        · rw [hlk] at hs
          injection hs with hv
          subst hv
          simp [wrongTyped] at hw
      · rcases (applyEmployees_ok h3).2 with ⟨hn, _⟩ | ⟨q, hs, _⟩ | ⟨n, hs, _⟩
        · rw [hlk] at hn; exact Option.noConfusion hn
        · rw [hlk] at hs
          injection hs with hv
          subst hv
          simp [wrongTyped] at hw
        · rw [hlk] at hs
          injection hs with hv
          subst hv
          simp [wrongTyped] at hw
      · rcases (applyRegistered_ok h4).2 with ⟨hn, _⟩ | ⟨b, hs, _⟩
        · rw [hlk] at hn; exact Option.noConfusion hn
        · rw [hlk] at hs
          injection hs with hv
          subst hv
          simp [wrongTyped] at hw
      · rcases (applyType_ok h5).2 with ⟨hn, _⟩ | ⟨s, hs, _⟩
        · rw [hlk] at hn; exact Option.noConfusion hn
        · rw [hlk] at hs
          injection hs with hv
          subst hv
          simp [wrongTyped] at hw
  · intro pubOk st id u current msg hok happ
    simp only [Patch, hok, happ]

/-- Witness for C5: a patch map carrying a boolean name merges to the
name type-mismatch error, and the corresponding Patch on a one-record
store returns exactly that error with the store untouched and only the
fetch in its trace. -/
theorem patch_type_mismatch_witness :
    (∃ k2 v2,
      List.lookup k2 [("name", JValue.bool true)] = some v2 ∧
        wrongTyped k2 v2 = true ∧
        applyUpdates ⟨1, "Acme", none, 1, true, "Corporations"⟩
          [("name", JValue.bool true)] = .error (fieldErrMsg k2)) ∧
    Patch true [⟨1, "Acme", none, 1, true, "Corporations"⟩] 1
        [("name", JValue.bool true)] =
      ⟨.error (.Validation "name must be a string"),
        [⟨1, "Acme", none, 1, true, "Corporations"⟩], [.getById 1]⟩ :=
  ⟨patch_type_mismatch.1 ⟨1, "Acme", none, 1, true, "Corporations"⟩
      [("name", JValue.bool true)] "name" (JValue.bool true) rfl (by decide),
   patch_type_mismatch.2 true [⟨1, "Acme", none, 1, true, "Corporations"⟩] 1
      [("name", JValue.bool true)] ⟨1, "Acme", none, 1, true, "Corporations"⟩
      "name must be a string" rfl rfl⟩

/-- Counterexample for C4: a patch map holding only the unrecognized key
colour (not the id key) contains no recognized mutable key, yet the
handler does not reject it as an empty patch: the service is invoked, the
record is fetched and an update is issued, so persistence is accessed. -/
theorem empty_patch_counterexample :
    (handlerPatch true [⟨1, "Acme", none, 1, true, "Corporations"⟩] 1
        [("colour", JValue.str "red")]).res ≠ .error .EmptyPatch ∧
    TraceEv.getById 1 ∈
      (handlerPatch true [⟨1, "Acme", none, 1, true, "Corporations"⟩] 1
        [("colour", JValue.str "red")]).trace ∧
    TraceEv.repoUpdate ⟨1, "Acme", none, 1, true, "Corporations"⟩ ∈
      (handlerPatch true [⟨1, "Acme", none, 1, true, "Corporations"⟩] 1
        [("colour", JValue.str "red")]).trace := by
  refine ⟨?_, ?_, ?_⟩
  · have hres : (handlerPatch true [⟨1, "Acme", none, 1, true, "Corporations"⟩] 1
        [("colour", JValue.str "red")]).res =
        .ok ⟨1, "Acme", none, 1, true, "Corporations"⟩ := rfl
    rw [hres]
    intro hcontra
    exact Except.noConfusion hcontra
  · decide
  · decide

/-- C4 amended: a Patch whose field map, after the handler strips the id
key, is empty — the empty map or a map holding only the id key — is
rejected with the EmptyPatch error before any persistence access (empty
trace, store untouched); maps holding unrecognized keys other than id are
not rejected by this gate. -/
theorem empty_patch_gate (pubOk : Bool) (st : Store) (id : Nat) (u : Updates)
    (h : (u.filter (fun kv => kv.1 != "id")).isEmpty = true) :
    handlerPatch pubOk st id u = ⟨.error .EmptyPatch, st, []⟩ := by
  unfold handlerPatch
  simp [h]

/-- Witness for C4 amended: a map holding only the id key is rejected as
EmptyPatch with no persistence access. -/
theorem empty_patch_gate_witness :
    handlerPatch true [⟨1, "Acme", none, 1, true, "Corporations"⟩] 1
        [("id", JValue.int 9)] =
      ⟨.error .EmptyPatch, [⟨1, "Acme", none, 1, true, "Corporations"⟩], []⟩ :=
  empty_patch_gate true [⟨1, "Acme", none, 1, true, "Corporations"⟩] 1
    [("id", JValue.int 9)] (by decide)

theorem getById_char {st : Store} {id : Nat} {r : Company}
    (h : getById st id = .ok r) : r ∈ st ∧ r.ID = id := by
  unfold getById at h
  cases hf : st.find? (fun x => x.ID == id) with
  | none => rw [hf] at h; exact Except.noConfusion h
  | some r0 =>
    rw [hf] at h
    injection h with h2
    subst h2
    refine ⟨List.mem_of_find?_eq_some hf, ?_⟩
    have := List.find?_some hf
    simpa using this

theorem getByName_some_of_mem {st : Store} {n : String} (h : ∃ r ∈ st, r.Name = n) :
    ∃ r0, getByName st n = some r0 := by
  rcases h with ⟨r, hr, hn⟩
  have hsome : (st.find? (fun x => x.Name == n)).isSome :=
    List.find?_isSome.mpr ⟨r, hr, by simp [hn]⟩
  cases hf : st.find? (fun x => x.Name == n) with
  | none => rw [hf] at hsome; simp at hsome
  | some r0 => exact ⟨r0, by unfold getByName; rw [hf]⟩

theorem map_self {A : Type} (l : List A) (f : A → A) (h : ∀ a ∈ l, f a = a) :
    l.map f = l := by
  induction l with
  | nil => rfl
  | cons a t ih =>
    simp only [List.map_cons]
    rw [h a (by simp), ih (fun b hb => h b (by simp [hb]))]

theorem wf_same_name {st : Store} (hwf : WellFormed st) {a b : Company}
    (ha : a ∈ st) (hb : b ∈ st) (hn : a.Name = b.Name) : a = b := by
  by_cases heq : a = b
  · exact heq
  · exfalso
    have hsym : Symmetric (fun a b : Company => a.ID ≠ b.ID ∧ a.Name ≠ b.Name) :=
      fun a b hp => ⟨Ne.symm hp.1, Ne.symm hp.2⟩
    exact (List.Pairwise.forall hsym hwf.2 ha hb heq).2 hn

theorem wf_same_id {st : Store} (hwf : WellFormed st) {a b : Company}
    (ha : a ∈ st) (hb : b ∈ st) (hid : a.ID = b.ID) : a = b := by
  by_cases heq : a = b
  · exact heq
  · exfalso
    have hsym : Symmetric (fun a b : Company => a.ID ≠ b.ID ∧ a.Name ≠ b.Name) :=
      fun a b hp => ⟨Ne.symm hp.1, Ne.symm hp.2⟩
    exact (List.Pairwise.forall hsym hwf.2 ha hb heq).1 hid

/-- C3: duplicate-name enforcement with self-collision exclusion, on a
well-formed store (validated rows, the schema's unique ids and names):
Create of a valid candidate whose name an existing record already holds
fails with DuplicateName and persists nothing; Patch renaming a record to
a name held by a record with a different id fails with DuplicateName and
persists nothing; and Patch that sets a record's name to the name it
already owns succeeds — its own name is never treated as a collision. -/
theorem duplicate_name_enforcement :
    (∀ (pubOk : Bool) (newId : Nat) (st : Store) (c : Company),
      Validate c = none → (∃ r ∈ st, r.Name = c.Name) →
      (Create pubOk newId st c).res = .error .DuplicateName ∧
        (Create pubOk newId st c).store = st) ∧
    (∀ (pubOk : Bool) (st : Store) (id : Nat) (x : String) (r : Company),
      WellFormed st → getById st id = .ok r →
      (∃ other ∈ st, other.Name = x ∧ other.ID ≠ id) →
      (Patch pubOk st id [("name", JValue.str x)]).res = .error .DuplicateName ∧
        (Patch pubOk st id [("name", JValue.str x)]).store = st) ∧
    (∀ (pubOk : Bool) (st : Store) (id : Nat) (r : Company),
      WellFormed st → getById st id = .ok r →
      (Patch pubOk st id [("name", JValue.str r.Name)]).res = .ok r ∧
        (Patch pubOk st id [("name", JValue.str r.Name)]).store = st) := by
  refine ⟨?_, ?_, ?_⟩
  · intro pubOk newId st c hv hex
    obtain ⟨r0, hg⟩ := getByName_some_of_mem hex
    unfold Create
    rw [hv, hg]
    exact ⟨rfl, rfl⟩
  · intro pubOk st id x r hwf hget hex
    obtain ⟨hmem, hid⟩ := getById_char hget
    rcases hex with ⟨other, hom, honame, hoid⟩
    have happ : applyUpdates r [("name", JValue.str x)] = .ok { r with Name := x } := rfl
    have hprobe : patchNameProbe [("name", JValue.str x)] { r with Name := x } = none := by
      unfold patchNameProbe
      simp
    have hrv := (validate_none_iff r).mp (hwf.1 r hmem)
    have hov := (validate_none_iff other).mp (hwf.1 other hom)
    have hval : Validate { r with Name := x } = none := by
      apply (validate_none_iff _).mpr
      exact ⟨honame ▸ hov.1, honame ▸ hov.2.1, hrv.2.2.1, hrv.2.2.2.1, hrv.2.2.2.2⟩
    have htarget : st.any (fun rr => rr.ID == ({ r with Name := x } : Company).ID) = true :=
      List.any_eq_true.mpr ⟨r, hmem, by simp⟩
    have hcol : st.any (fun rr =>
        rr.ID != ({ r with Name := x } : Company).ID &&
          rr.Name == ({ r with Name := x } : Company).Name) = true := by
      apply List.any_eq_true.mpr
      refine ⟨other, hom, ?_⟩
      have h1 : other.ID ≠ r.ID := by rw [hid]; exact hoid
      simp [h1, honame]
    have hupd : repoUpdate st { r with Name := x } = .error .DuplicateName := by
      unfold repoUpdate
      rw [htarget, hcol]
      simp
    simp only [Patch, patchFinish, hget, happ, hprobe, hval, hupd]
    exact ⟨trivial, trivial⟩
  · intro pubOk st id r hwf hget
    obtain ⟨hmem, hid⟩ := getById_char hget
    have happ : applyUpdates r [("name", JValue.str r.Name)] = .ok r := rfl
    have hprobe : patchNameProbe [("name", JValue.str r.Name)] r = none := by
      unfold patchNameProbe
      simp
    have hval : Validate r = none := hwf.1 r hmem
    have htarget : st.any (fun rr => rr.ID == r.ID) = true :=
      List.any_eq_true.mpr ⟨r, hmem, by simp⟩
    have hcol : st.any (fun rr => rr.ID != r.ID && rr.Name == r.Name) = false := by
      cases hv2 : st.any (fun rr => rr.ID != r.ID && rr.Name == r.Name) with
      | false => rfl
      | true =>
        exfalso
        rcases List.any_eq_true.mp hv2 with ⟨rr, hrr, hb⟩
        simp at hb
        exact hb.1 (congrArg Company.ID (wf_same_name hwf hrr hmem hb.2))
    have hmap : st.map (fun rr => if rr.ID == r.ID then r else rr) = st := by
      have hcongr : ∀ rr ∈ st, (if rr.ID == r.ID then r else rr) = rr := by
        intro rr hrr
        by_cases hre : rr.ID = r.ID
        · have : rr = r := wf_same_id hwf hrr hmem hre
          simp [hre, this]
        · simp [hre]
      exact map_self st _ hcongr
    have hupd : repoUpdate st r =
        .ok (st.map (fun rr => if rr.ID == r.ID then r else rr)) := by
      unfold repoUpdate
      rw [htarget, hcol]
      simp
    simp only [Patch, patchFinish, hget, happ, hprobe, hval, hupd, hmap]
    exact ⟨trivial, trivial⟩

/-- Witness for C3: on the two-record store Acme and Beta, creating
another valid Acme fails with DuplicateName and persists nothing,
renaming Beta to Acme fails with DuplicateName and persists nothing, and
renaming Acme to its own name Acme succeeds. -/
theorem duplicate_name_enforcement_witness :
    ((Create true 3
        [⟨1, "Acme", none, 1, true, "Corporations"⟩,
          ⟨2, "Beta", none, 2, true, "NonProfit"⟩]
        ⟨0, "Acme", none, 5, true, "Corporations"⟩).res = .error .DuplicateName ∧
      (Create true 3
        [⟨1, "Acme", none, 1, true, "Corporations"⟩,
          ⟨2, "Beta", none, 2, true, "NonProfit"⟩]
        ⟨0, "Acme", none, 5, true, "Corporations"⟩).store =
        [⟨1, "Acme", none, 1, true, "Corporations"⟩,
          ⟨2, "Beta", none, 2, true, "NonProfit"⟩]) ∧
    ((Patch true
        [⟨1, "Acme", none, 1, true, "Corporations"⟩,
          ⟨2, "Beta", none, 2, true, "NonProfit"⟩] 2
        [("name", JValue.str "Acme")]).res = .error .DuplicateName ∧
      (Patch true
        [⟨1, "Acme", none, 1, true, "Corporations"⟩,
          ⟨2, "Beta", none, 2, true, "NonProfit"⟩] 2
        [("name", JValue.str "Acme")]).store =
        [⟨1, "Acme", none, 1, true, "Corporations"⟩,
          ⟨2, "Beta", none, 2, true, "NonProfit"⟩]) ∧
    ((Patch true
        [⟨1, "Acme", none, 1, true, "Corporations"⟩,
          ⟨2, "Beta", none, 2, true, "NonProfit"⟩] 1
        [("name", JValue.str "Acme")]).res =
        .ok ⟨1, "Acme", none, 1, true, "Corporations"⟩ ∧
      (Patch true
        [⟨1, "Acme", none, 1, true, "Corporations"⟩,
          ⟨2, "Beta", none, 2, true, "NonProfit"⟩] 1
        [("name", JValue.str "Acme")]).store =
        [⟨1, "Acme", none, 1, true, "Corporations"⟩,
          ⟨2, "Beta", none, 2, true, "NonProfit"⟩]) :=
  ⟨duplicate_name_enforcement.1 true 3
      [⟨1, "Acme", none, 1, true, "Corporations"⟩,
        ⟨2, "Beta", none, 2, true, "NonProfit"⟩]
      ⟨0, "Acme", none, 5, true, "Corporations"⟩ (by decide) (by decide),
    duplicate_name_enforcement.2.1 true
      [⟨1, "Acme", none, 1, true, "Corporations"⟩,
        ⟨2, "Beta", none, 2, true, "NonProfit"⟩] 2 "Acme"
      ⟨2, "Beta", none, 2, true, "NonProfit"⟩
      ⟨by decide, by decide⟩ rfl (by decide),
    duplicate_name_enforcement.2.2 true
      [⟨1, "Acme", none, 1, true, "Corporations"⟩,
        ⟨2, "Beta", none, 2, true, "NonProfit"⟩] 1
      ⟨1, "Acme", none, 1, true, "Corporations"⟩
      ⟨by decide, by decide⟩ rfl⟩
